import Mathlib

/-
  A shallow embedding of the core of remix-validated-form
  (packages/remix-validated-form/src/ValidatedForm.tsx) in Lean 4,
  together with theorems settling the documented properties of the
  form synchronization engine.

  JavaScript objects used as string-keyed records (FieldErrors,
  TouchedFields) are embedded as association lists that keep property
  insertion order, which is observable through Object.keys.  A React
  state-updater that returns its argument unchanged causes no re-render,
  while one that returns a freshly allocated object does; updater
  functions therefore return a pair of the new store value and a Bool
  recording whether a fresh object (hence a state-change) was produced.
-/

set_option autoImplicit false

namespace RVF

/-- JavaScript truthiness of a value of type string-or-undefined:
`undefined` and the empty string are falsy, all other strings truthy. -/
def optTruthy : Option String → Bool
  | none => false
  | some s => !(s == "")

/-- A FieldErrors object: field name to human-readable message,
in property insertion order (as Object.keys would enumerate it). -/
abbrev FieldErrors := List (String × String)

/-- A raw repopulation payload (repopulateFields), field name to raw value. -/
abbrev RawPayload := List (String × String)

/-- The JavaScript `key in obj` test on a FieldErrors object. -/
def jsHas (m : FieldErrors) (k : String) : Bool :=
  m.any (fun p => p.1 == k)

/-- The JavaScript property read `obj[key]` on a FieldErrors object:
`some` the stored message, or `none` for undefined. -/
def jsGet : FieldErrors → String → Option String
  | [], _ => none
  | p :: rest, k => if p.1 == k then some p.2 else jsGet rest k

/-- The JavaScript keys of a FieldErrors object, i.e. Object.keys. -/
def jsKeys (m : FieldErrors) : List String :=
  m.map (fun p => p.1)

/-- The spread-update `\x7b...prev, [fieldName]: error\x7d`: an existing key keeps
its position and gets the new value, a new key is appended at the end.
Always allocates a fresh object. -/
def spreadSet : FieldErrors → String → String → FieldErrors
  | [], k, v => [(k, v)]
  | p :: rest, k, v => if p.1 == k then (k, v) :: rest else p :: spreadSet rest k v

/-- Modelled from the spec: `omit` is imported from `internal/util`, whose
source is not part of the given files (the name `omit` is a Lean keyword,
hence `omitField` here).  Per spec section 4.2, `clearError` built on it
"is a no-op (and must not trigger a state change) if the field has no
existing error", so `omit` hands back the original object untouched when
the key is absent, and otherwise a fresh copy without the key.  The Bool
records whether a fresh object (a state-change notification) was
produced. -/
def omitField (m : FieldErrors) (k : String) : FieldErrors × Bool :=
  if jsHas m k then (m.filter (fun p => !(p.1 == k)), true) else (m, false)

/-- The validation result of Validator.validate: a tagged union carrying
either the parsed typed data or the field errors of the failure. -/
inductive ValidationResult (δ : Type) where
  | success (data : δ)
  | error (fieldErrors : FieldErrors)
  deriving DecidableEq

/-- The Validator contract: `validate` over the whole payload and
`validateField` for one field (its optional error string). -/
structure Validator (φ δ : Type) where
  validate : φ → ValidationResult δ
  validateField : φ → String → Option String

/-- One input element of the rendered form: its name attribute and its
type attribute (the string "hidden" marks a hidden input). -/
structure InputEl where
  name : String
  type : String
  deriving DecidableEq

/-- Modelled from the spec: the MultiValueMap of custom focus handlers
(`internal/MultiValueMap`, not among the given files).  Spec section 4.4
describes it as a mapping from a field name to the ordered list of
registered handlers; handlers are identified here by numeric tags.  -/
abbrev HandlerMap := List (String × List Nat)

/-- All handlers registered for a field name (MultiValueMap.getAll). -/
def getAll (m : HandlerMap) (k : String) : List Nat :=
  ((m.find? (fun p => p.1 == k)).map (fun p => p.2)).getD []

/-- Whether any handler is registered for a field name (MultiValueMap.has). -/
def hasKey (m : HandlerMap) (k : String) : Bool :=
  !(getAll m k).isEmpty

/-- What the focus pass ends up doing: invoking every custom handler of one
field, focusing one input directly, or touching nothing. -/
inductive FocusOutcome where
  | handlersInvoked (name : String) (handlers : List Nat)
  | focused (name : String)
  | noFocus
  deriving DecidableEq

/-- The `for (const element of invalidInputs)` loop of
focusFirstInvalidInput: a custom handler set fires all its handlers and
breaks; a hidden input is skipped with continue; any other input is
focused and the loop breaks. -/
def focusLoop (handlers : HandlerMap) : List InputEl → FocusOutcome
  | [] => .noFocus
  | i :: rest =>
      if hasKey handlers i.name then .handlersInvoked i.name (getAll handlers i.name)
      else if i.type == "hidden" then focusLoop handlers rest
      else .focused i.name

/-- The result of `formElement.querySelectorAll` on the selector built from
the error keys: the input elements whose name carries an error, kept in
document order (`inputs` lists the form inputs in document order). -/
def filterInvalid (fieldErrors : FieldErrors) (inputs : List InputEl) : List InputEl :=
  inputs.filter (fun i => (jsKeys fieldErrors).contains i.name)

/-- focusFirstInvalidInput from ValidatedForm.tsx: query the invalid inputs
in document order, then run the focus loop over them. -/
def focusFirstInvalidInput (fieldErrors : FieldErrors) (handlers : HandlerMap)
    (inputs : List InputEl) : FocusOutcome :=
  focusLoop handlers (filterInvalid fieldErrors inputs)

/-- The focus algorithm as the specification words it (this definition
follows the spec text, for comparison with the source): iterate the field
names in the order their errors were produced; a name with custom handlers
fires them all and stops; a name whose underlying field is hidden is
skipped; otherwise that field is focused and iteration stops. -/
def claimFocusLoop (handlers : HandlerMap) (inputs : List InputEl) : List String → FocusOutcome
  | [] => .noFocus
  | n :: rest =>
      if hasKey handlers n then .handlersInvoked n (getAll handlers n)
      else
        match inputs.find? (fun i => i.name == n) with
        | some i => if i.type == "hidden" then claimFocusLoop handlers inputs rest else .focused n
        | none => claimFocusLoop handlers inputs rest

/-- The spec-worded focus pass over the error keys in insertion order. -/
def claimFocusFirstInvalidInput (fieldErrors : FieldErrors) (handlers : HandlerMap)
    (inputs : List InputEl) : FocusOutcome :=
  claimFocusLoop handlers inputs (jsKeys fieldErrors)

/-- The outcome of one run of the onSubmit handler of ValidatedForm:
the hasBeenSubmitted flag, the field-error store after the run, whether
event.preventDefault was called, the argument handed to the caller
onSubmit callback (if it was invoked), and the focus pass outcome (none
when the focus pass did not run). -/
structure SubmitResult (δ : Type) where
  hasBeenSubmitted : Bool
  fieldErrors : FieldErrors
  defaultPrevented : Bool
  onSubmitCalledWith : Option δ
  focus : Option FocusOutcome
  deriving DecidableEq

/-- The onSubmit handler of ValidatedForm: set hasBeenSubmitted, validate
the form payload; on error prevent the default submission, replace the
error store with the failure errors and (unless disabled) run the focus
pass; on success leave the submission alone and call the caller onSubmit
callback with the parsed data. -/
def submitHandler {φ δ : Type} (validator : Validator φ δ) (hasOnSubmit : Bool)
    (disableFocusOnError : Bool) (handlers : HandlerMap) (inputs : List InputEl)
    (prevFieldErrors : FieldErrors) (payload : φ) : SubmitResult δ :=
  match validator.validate payload with
  | .error fieldErrors =>
      { hasBeenSubmitted := true
        fieldErrors := fieldErrors
        defaultPrevented := true
        onSubmitCalledWith := none
        focus := if disableFocusOnError then none
                 else some (focusFirstInvalidInput fieldErrors handlers inputs) }
  | .success d =>
      { hasBeenSubmitted := true
        fieldErrors := prevFieldErrors
        defaultPrevented := false
        onSubmitCalledWith := if hasOnSubmit then some d else none
        focus := none }

/-- The action data shape the engine inspects (ValidationErrorResponseData):
optional fieldErrors object, optional subaction tag, optional repopulation
payload. -/
structure ActionData where
  fieldErrors : Option FieldErrors
  subaction : Option String
  repopulateFields : Option RawPayload
  deriving DecidableEq

/-- A fetcher handle as the engine reads it: its returned data and its
state string. -/
structure Fetcher where
  data : Option ActionData
  state : String
  deriving DecidableEq

/-- useErrorResponseForThisForm from ValidatedForm.tsx.  With a fetcher the
fetcher data is taken whenever it carries fieldErrors, with no subaction
comparison.  Without one, the route action data is taken when it carries
fieldErrors and either both subactions are falsy or they are strictly
equal. -/
def useErrorResponseForThisForm (fetcher : Option Fetcher) (subaction : Option String)
    (actionData : Option ActionData) : Option ActionData :=
  match fetcher with
  | some f =>
      match f.data with
      | some d => if d.fieldErrors.isSome then some d else none
      | none => none
  | none =>
      match actionData with
      | none => none
      | some d =>
          if !d.fieldErrors.isSome then none
          else if (!optTruthy subaction && !optTruthy d.subaction) || d.subaction == subaction
          then some d
          else none

/-- The initial field-error store of useFieldErrors:
the backend errors when present, the empty object otherwise. -/
def useFieldErrorsInit (fieldErrorsFromBackend : Option FieldErrors) : FieldErrors :=
  fieldErrorsFromBackend.getD []

/-- The subaction matching rule as the claim words it (this definition
follows the spec text, for comparison with the source): a form with a
declared subaction matches exactly the payload carrying that subaction,
and a form with none matches exactly a payload carrying none. -/
def claimSubactionMatch (formSub paySub : Option String) : Bool :=
  match formSub with
  | some s => paySub == some s
  | none => paySub == none

/-- Normalization of a subaction value under JavaScript falsiness:
an absent or empty subaction both normalize to absent. -/
def normalizeSubaction (o : Option String) : Option String :=
  if optTruthy o then o else none

/-- A pending form submission as useTransition exposes it: its action and
the value of the hidden subaction field in its form data (none when the
submission carries no such entry; the empty string is a present entry). -/
structure Submission where
  action : String
  formDataSubaction : Option String
  deriving DecidableEq

/-- useIsSubmitting from ValidatedForm.tsx.  A fetcher decides alone by its
state.  Otherwise a pending submission counts when its action equals the
expected one and the subactions agree: strict equality when this form
declares a truthy subaction, absence of a truthy one otherwise. -/
def useIsSubmitting (action : Option String) (subaction : Option String)
    (fetcher : Option Fetcher) (actionForCurrentPage : String)
    (pendingFormSubmit : Option Submission) : Bool :=
  match fetcher with
  | some f => f.state == "submitting"
  | none =>
      match pendingFormSubmit with
      | none => false
      | some pending =>
          let expectedAction := action.getD actionForCurrentPage
          if optTruthy subaction then
            expectedAction == pending.action && subaction == pending.formDataSubaction
          else
            expectedAction == pending.action && !optTruthy pending.formDataSubaction

/-- useDefaultValues from ValidatedForm.tsx: the backend repopulation
payload wins over the caller-supplied defaults while it is present. -/
def useDefaultValues (repopulateFieldsFromBackend : Option RawPayload)
    (defaultValues : Option RawPayload) : Option RawPayload :=
  match repopulateFieldsFromBackend with
  | some r => some r
  | none => defaultValues

/-- The clearError updater `(prev) => omit(prev, fieldName)`. -/
def clearErrorUpdate (fieldName : String) (prev : FieldErrors) : FieldErrors × Bool :=
  omitField prev fieldName

/-- The validateField state update: with a truthy error string, keep the
store untouched when the stored entry already strictly equals it,
otherwise spread-set it; with a falsy outcome, keep the store untouched
when the key is absent, otherwise omit it. -/
def validateFieldUpdate (fieldName : String) (error : Option String)
    (prev : FieldErrors) : FieldErrors × Bool :=
  if optTruthy error then
    if jsGet prev fieldName == error then (prev, false)
    else (spreadSet prev fieldName (error.getD ""), true)
  else
    if !(jsHas prev fieldName) then (prev, false)
    else omitField prev fieldName

/-- Modelled from the spec: useSubmitComplete lives in
`internal/submissionCallbacks`, not among the given files.  Per spec
sections 4.5 and 9 it is an edge-triggered watcher over the isSubmitting
signal: a pending flag is raised while submitting and the callback fires
exactly when a render observes idle with the flag raised, the flag being
lowered again.  One step maps the pending flag and the rendered
isSubmitting value to the new flag and whether the callback fires. -/
def submitCompleteStep (pending isSubmitting : Bool) : Bool × Bool :=
  if isSubmitting then (true, false) else (false, pending)

/-- Total number of callback invocations over a trace of rendered
isSubmitting values, threading the pending flag. -/
def submitCompleteFires : Bool → List Bool → Nat
  | _, [] => 0
  | pending, b :: rest =>
      let s := submitCompleteStep pending b
      (if s.2 then 1 else 0) + submitCompleteFires s.1 rest

/-- Number of Submitting to Idle transitions in a trace, given the value
preceding it. -/
def fallingEdges : Bool → List Bool → Nat
  | _, [] => 0
  | prev, b :: rest => (if prev && !b then 1 else 0) + fallingEdges b rest

/-- The completion callback installed by ValidatedForm: the form element is
reset exactly when no backend error response is present and
resetAfterSubmit is set. -/
def submitCompleteCallbackResets (backendError : Option ActionData)
    (resetAfterSubmit : Bool) : Bool :=
  backendError.isNone && resetAfterSubmit

/-- The reset event as the caller handler sees it. -/
structure ResetEvent where
  defaultPrevented : Bool
  deriving DecidableEq

/-- The three stores the reset handler touches. -/
structure FormStores where
  fieldErrors : FieldErrors
  touchedFields : List (String × Bool)
  hasBeenSubmitted : Bool
  deriving DecidableEq

/-- Running the optional caller onReset handler over the fresh event
(defaultPrevented starts false; the handler may call preventDefault). -/
def runUserReset (userOnReset : Option (ResetEvent → ResetEvent)) : ResetEvent :=
  match userOnReset with
  | some h => h { defaultPrevented := false }
  | none => { defaultPrevented := false }

/-- The onReset handler of ValidatedForm: call the caller handler first;
if it prevented the default, leave every store alone; otherwise clear the
error store, the touched store and the hasBeenSubmitted flag. -/
def onResetHandler (userOnReset : Option (ResetEvent → ResetEvent))
    (stores : FormStores) : FormStores :=
  if (runUserReset userOnReset).defaultPrevented then stores
  else { fieldErrors := [], touchedFields := [], hasBeenSubmitted := false }

/-- The data portion of the context value ValidatedForm memoizes (the
mutation callbacks are modelled separately as the updater functions
above). -/
structure FormContextValue where
  fieldErrors : FieldErrors
  action : Option String
  defaultValues : Option RawPayload
  isSubmitting : Bool
  isValid : Bool
  touchedFields : List (String × Bool)
  hasBeenSubmitted : Bool
  deriving DecidableEq

/-- The contextValue construction of ValidatedForm: isValid is computed as
Object.keys(fieldErrors).length === 0 on every recomputation. -/
def contextValue (fieldErrors : FieldErrors) (action : Option String)
    (defaultValues : Option RawPayload) (isSubmitting : Bool)
    (touchedFields : List (String × Bool)) (hasBeenSubmitted : Bool) : FormContextValue :=
  { fieldErrors := fieldErrors
    action := action
    defaultValues := defaultValues
    isSubmitting := isSubmitting
    isValid := (jsKeys fieldErrors).length == 0
    touchedFields := touchedFields
    hasBeenSubmitted := hasBeenSubmitted }

/-- A demonstration validator over a Bool payload used by the concrete
witnesses: a true payload parses to 7, a false one fails on field a. -/
def demoValidator : Validator Bool Nat :=
  { validate := fun p => if p then .success 7 else .error [("a", "required")]
    validateField := fun _ _ => none }

/-- C1: For every payload on which the validator returns the failure
variant with field errors E, the submit handler prevents the default of
the submit event (suppressing the network submission), sets
hasBeenSubmitted to true, and replaces the field-error store wholesale so
that it equals E exactly. -/
theorem submit_failure_blocks_and_replaces_errors {φ δ : Type}
    (validator : Validator φ δ) (hasOnSubmit disableFocusOnError : Bool)
    (handlers : HandlerMap) (inputs : List InputEl) (prev : FieldErrors)
    (payload : φ) (errs : FieldErrors)
    (h : validator.validate payload = .error errs) :
    (submitHandler validator hasOnSubmit disableFocusOnError handlers inputs prev payload).defaultPrevented = true ∧
    (submitHandler validator hasOnSubmit disableFocusOnError handlers inputs prev payload).hasBeenSubmitted = true ∧
    (submitHandler validator hasOnSubmit disableFocusOnError handlers inputs prev payload).fieldErrors = errs := by
  simp [submitHandler, h]

/-- Witness for C1: the demonstration validator fails on the false payload
and the submit handler behaves as the theorem states there. -/
theorem submit_failure_blocks_and_replaces_errors_witness :
    demoValidator.validate false = .error [("a", "required")] ∧
    ((submitHandler demoValidator true false [] [] [] false).defaultPrevented = true ∧
     (submitHandler demoValidator true false [] [] [] false).hasBeenSubmitted = true ∧
     (submitHandler demoValidator true false [] [] [] false).fieldErrors = [("a", "required")]) :=
  ⟨rfl, submit_failure_blocks_and_replaces_errors demoValidator true false [] [] [] false
    [("a", "required")] rfl⟩

/-- C2: For every payload on which the validator returns the success
variant with typed data D, the submit handler does not prevent the default
(the network submission proceeds) and, when a caller onSubmit callback is
supplied, invokes it with exactly D as its first argument. -/
theorem submit_success_proceeds_and_passes_data {φ δ : Type}
    (validator : Validator φ δ) (hasOnSubmit disableFocusOnError : Bool)
    (handlers : HandlerMap) (inputs : List InputEl) (prev : FieldErrors)
    (payload : φ) (d : δ)
    (h : validator.validate payload = .success d) :
    (submitHandler validator hasOnSubmit disableFocusOnError handlers inputs prev payload).defaultPrevented = false ∧
    (hasOnSubmit = true →
      (submitHandler validator hasOnSubmit disableFocusOnError handlers inputs prev payload).onSubmitCalledWith = some d) := by
  refine ⟨by simp [submitHandler, h], fun hs => ?_⟩
  simp [submitHandler, h, hs]

/-- Witness for C2: the demonstration validator succeeds on the true
payload with data 7 and the submit handler behaves as the theorem states
there. -/
theorem submit_success_proceeds_and_passes_data_witness :
    demoValidator.validate true = .success 7 ∧
    ((submitHandler demoValidator true false [] [] [] true).defaultPrevented = false ∧
     (true = true →
      (submitHandler demoValidator true false [] [] [] true).onSubmitCalledWith = some 7)) :=
  ⟨rfl, submit_success_proceeds_and_passes_data demoValidator true false [] [] [] true 7 rfl⟩

/-- Spread-setting a key makes the subsequent property read return the
written value. -/
theorem jsGet_spreadSet (m : FieldErrors) (k v : String) :
    jsGet (spreadSet m k v) k = some v := by
  induction m with
  | nil => simp [spreadSet, jsGet]
  | cons p rest ih =>
      by_cases h : p.1 = k
      · simp [spreadSet, h, jsGet]
      · simp [spreadSet, h, jsGet, ih]

/-- Filtering out every pair with a given key leaves a store without that
key. -/
theorem jsHas_filter_not (m : FieldErrors) (k : String) :
    jsHas (m.filter (fun p => !(p.1 == k))) k = false := by
  simp [jsHas, List.any_eq_true, List.mem_filter]

/-- C5: clearError on a field name with no entry in the error store hands
back the very same store and produces no state-change notification. -/
theorem clearError_noop_when_absent (fieldName : String) (prev : FieldErrors)
    (h : jsHas prev fieldName = false) :
    clearErrorUpdate fieldName prev = (prev, false) := by
  simp [clearErrorUpdate, omitField, h]

/-- Witness for C5: clearing the absent field b of a one-entry store. -/
theorem clearError_noop_when_absent_witness :
    jsHas [("a", "msg")] "b" = false ∧
    clearErrorUpdate "b" [("a", "msg")] = ([("a", "msg")], false) :=
  ⟨by decide, clearError_noop_when_absent "b" [("a", "msg")] (by decide)⟩

/-- C6 counterexample: with the stored entry and the new outcome both the
empty string — an identical error string — the updater does not skip: the
code treats a falsy error as no error, removes the entry and produces a
state change. -/
theorem validateField_identical_empty_string_changes_store :
    jsGet [("a", "")] "a" = some "" ∧
    validateFieldUpdate "a" (some "") [("a", "")] = ([], true) := by decide

/-- C6 amended: the single-field validation update skips the store update
exactly in the sense of JavaScript truthiness — when the outcome is a
truthy error string strictly equal to the stored entry, or when the
outcome is falsy (absent or empty) and the key is absent; an existing
entry is removed, with a state change, on a falsy outcome even when that
entry is itself the empty string.  Moreover a second run with the same
outcome never changes the store nor notifies, hence validateField is
idempotent with respect to state change. -/
theorem validateField_skip_and_idempotent (fieldName : String)
    (outcome : Option String) (prev : FieldErrors) :
    (((optTruthy outcome = true ∧ jsGet prev fieldName = outcome) ∨
      (optTruthy outcome = false ∧ jsHas prev fieldName = false)) →
      validateFieldUpdate fieldName outcome prev = (prev, false)) ∧
    validateFieldUpdate fieldName outcome (validateFieldUpdate fieldName outcome prev).1
      = ((validateFieldUpdate fieldName outcome prev).1, false) := by
  constructor
  · rintro (⟨ht, hg⟩ | ⟨hf, hh⟩)
    · simp [validateFieldUpdate, ht, hg]
    · simp [validateFieldUpdate, hf, hh]
  · by_cases ht : optTruthy outcome = true
    · obtain ⟨e, he⟩ : ∃ e, outcome = some e := by
        cases outcome with
        | none => simp [optTruthy] at ht
        | some s => exact ⟨s, rfl⟩
      subst he
      by_cases hg : jsGet prev fieldName = some e
      · simp [validateFieldUpdate, ht, hg]
      · have h1 : validateFieldUpdate fieldName (some e) prev
            = (spreadSet prev fieldName e, true) := by
          simp [validateFieldUpdate, ht, hg]
        rw [h1]
        simp [validateFieldUpdate, ht, jsGet_spreadSet]
    · have hf : optTruthy outcome = false := by simpa using ht
      by_cases hh : jsHas prev fieldName = true
      · have h1 : validateFieldUpdate fieldName outcome prev
            = (prev.filter (fun p => !(p.1 == fieldName)), true) := by
          simp [validateFieldUpdate, hf, hh, omitField]
        rw [h1]
        simp [validateFieldUpdate, hf, jsHas_filter_not]
      · have hh2 : jsHas prev fieldName = false := by simpa using hh
        simp [validateFieldUpdate, hf, hh2]

/-- Witness for C6 amended: revalidating field a with its current message
changes nothing and does not notify. -/
theorem validateField_skip_and_idempotent_witness :
    ((optTruthy (some "msg") = true ∧ jsGet [("a", "msg")] "a" = some "msg") ∨
     (optTruthy (some "msg") = false ∧ jsHas [("a", "msg")] "a" = false)) ∧
    validateFieldUpdate "a" (some "msg") [("a", "msg")] = ([("a", "msg")], false) :=
  ⟨Or.inl ⟨by decide, by decide⟩,
   (validateField_skip_and_idempotent "a" (some "msg") [("a", "msg")]).1
     (Or.inl ⟨by decide, by decide⟩)⟩

/-- The boolean subaction condition of the source equals equality of the
falsiness-normalized subactions. -/
theorem subaction_cond_iff (formSub paySub : Option String) :
    ((!optTruthy formSub && !optTruthy paySub) || paySub == formSub) = true ↔
      normalizeSubaction paySub = normalizeSubaction formSub := by
  cases formSub with
  | none =>
      cases paySub with
      | none => simp [optTruthy, normalizeSubaction]
      | some t => by_cases h : t = "" <;> simp [optTruthy, normalizeSubaction, h]
  | some s =>
      cases paySub with
      | none => by_cases h : s = "" <;> simp [optTruthy, normalizeSubaction, h]
      | some t =>
          by_cases hs : s = "" <;> by_cases ht : t = ""
          · simp [optTruthy, normalizeSubaction, hs, ht]
          · simp [optTruthy, normalizeSubaction, hs, ht]
          · simp [optTruthy, normalizeSubaction, hs, ht, Ne.symm hs]
          · simp [optTruthy, normalizeSubaction, hs, ht]

/-- C3 counterexample: a route action payload carrying fieldErrors and the
empty-string subaction seeds a form that declares no subaction: the code
checks falsiness, so the empty subaction counts as absent, while the claim
requires the payload to carry no subaction at all. -/
theorem subaction_match_claim_cex :
    useErrorResponseForThisForm none none
        (some { fieldErrors := some [("f", "m")], subaction := some "", repopulateFields := none })
      = some { fieldErrors := some [("f", "m")], subaction := some "", repopulateFields := none } ∧
    claimSubactionMatch none (some "") = false := by decide

/-- C3 amended: an inbound action payload carrying fieldErrors seeds
exactly those forms whose declared subaction equals the payload's
subaction after normalizing an absent or empty subaction to absent; in
particular distinct nonempty subactions still isolate forms sharing one
action. -/
theorem subaction_match_normalized (formSub : Option String) (d : ActionData)
    (fe : FieldErrors) (h : d.fieldErrors = some fe) :
    useErrorResponseForThisForm none formSub (some d)
      = (if normalizeSubaction d.subaction = normalizeSubaction formSub
         then some d else none) := by
  have hs : d.fieldErrors.isSome = true := by rw [h]; rfl
  by_cases hn : normalizeSubaction d.subaction = normalizeSubaction formSub
  · have hc : ((!optTruthy formSub && !optTruthy d.subaction) || d.subaction == formSub) = true :=
      (subaction_cond_iff formSub d.subaction).mpr hn
    simp [useErrorResponseForThisForm, hs, hc, hn]
  · have hc : ((!optTruthy formSub && !optTruthy d.subaction) || d.subaction == formSub) = false := by
      cases hcond : ((!optTruthy formSub && !optTruthy d.subaction) || d.subaction == formSub)
      · rfl
      · exact absurd ((subaction_cond_iff formSub d.subaction).mp hcond) hn
    simp [useErrorResponseForThisForm, hs, hc, hn]

/-- Witness for C3 amended: a response tagged s1 is matched by the form
declaring s1. -/
theorem subaction_match_normalized_witness :
    ({ fieldErrors := some [("f", "m")], subaction := some "s1", repopulateFields := none } : ActionData).fieldErrors
        = some [("f", "m")] ∧
    useErrorResponseForThisForm none (some "s1")
        (some { fieldErrors := some [("f", "m")], subaction := some "s1", repopulateFields := none })
      = (if normalizeSubaction (some "s1") = normalizeSubaction (some "s1")
         then some { fieldErrors := some [("f", "m")], subaction := some "s1", repopulateFields := none }
         else none) :=
  ⟨rfl, subaction_match_normalized (some "s1")
    { fieldErrors := some [("f", "m")], subaction := some "s1", repopulateFields := none }
    [("f", "m")] rfl⟩

/-- C4 counterexample: errors are produced in the order a then b, both
inputs are visible and no custom handlers exist, but the b input comes
first in document order: the source focuses b, the claimed insertion-order
iteration focuses a. -/
theorem focus_insertion_order_cex :
    focusFirstInvalidInput [("a", "ea"), ("b", "eb")] []
        [{ name := "b", type := "text" }, { name := "a", type := "text" }] = .focused "b" ∧
    claimFocusFirstInvalidInput [("a", "ea"), ("b", "eb")] []
        [{ name := "b", type := "text" }, { name := "a", type := "text" }] = .focused "a" := by
  decide

/-- C4 amended: the focus pass iterates the matching input elements in
document order, not error insertion order: it acts on the first matching
element that has custom handlers or is not hidden — invoking all handlers
for its name when some are registered and focusing it directly otherwise —
and does nothing when every matching element is hidden without handlers.
In the spec example, errors on a and b with the a input hidden and the b
input visible, focus lands on b. -/
theorem focus_document_order (fieldErrors : FieldErrors) (handlers : HandlerMap)
    (inputs : List InputEl) :
    focusFirstInvalidInput fieldErrors handlers inputs
      = (match (filterInvalid fieldErrors inputs).find?
            (fun i => hasKey handlers i.name || !(i.type == "hidden")) with
         | some i => if hasKey handlers i.name
                     then FocusOutcome.handlersInvoked i.name (getAll handlers i.name)
                     else FocusOutcome.focused i.name
         | none => FocusOutcome.noFocus) ∧
    focusFirstInvalidInput [("a", "ea"), ("b", "eb")] []
        [{ name := "a", type := "hidden" }, { name := "b", type := "text" }] = .focused "b" := by
  constructor
  · unfold focusFirstInvalidInput
    generalize (filterInvalid fieldErrors inputs) = l
    induction l with
    | nil => rfl
    | cons i rest ih =>
        by_cases hh : hasKey handlers i.name = true
        · simp [focusLoop, hh, List.find?]
        · have hh2 : hasKey handlers i.name = false := by simpa using hh
          by_cases hty : i.type = "hidden"
          · simp [focusLoop, hh2, hty, List.find?, ih]
          · have hb : (i.type == "hidden") = false := by simp [hty]
            simp [focusLoop, hh2, hty, hb, List.find?]
  · decide

/-- The edge-triggered completion watcher fires exactly as many times as
the trace has falling edges, whatever the initial pending flag. -/
theorem submitCompleteFires_eq_fallingEdges (pending : Bool) (trace : List Bool) :
    submitCompleteFires pending trace = fallingEdges pending trace := by
  induction trace generalizing pending with
  | nil => rfl
  | cons b rest ih =>
      cases b <;> simp [submitCompleteFires, fallingEdges, submitCompleteStep, ih]

/-- C7: over any trace of rendered isSubmitting values, the completion
callback fires exactly once per Submitting to Idle transition — the number
of falling edges of the signal, not the number of renders — and on a fire
the form element is reset iff resetAfterSubmit is enabled and no backend
error response is present for this form. -/
theorem submit_complete_once_per_transition (trace : List Bool)
    (backendError : Option ActionData) (resetAfterSubmit : Bool) :
    submitCompleteFires false trace = fallingEdges false trace ∧
    (submitCompleteCallbackResets backendError resetAfterSubmit = true ↔
      backendError = none ∧ resetAfterSubmit = true) := by
  refine ⟨submitCompleteFires_eq_fallingEdges false trace, ?_⟩
  cases backendError <;> simp [submitCompleteCallbackResets]

/-- C8: a reset whose event the caller handler does not cancel clears the
error store, the touched store and hasBeenSubmitted; a cancelled reset
leaves all three unchanged. -/
theorem reset_clears_unless_prevented (userOnReset : Option (ResetEvent → ResetEvent))
    (stores : FormStores) :
    ((runUserReset userOnReset).defaultPrevented = false →
      onResetHandler userOnReset stores
        = { fieldErrors := [], touchedFields := [], hasBeenSubmitted := false }) ∧
    ((runUserReset userOnReset).defaultPrevented = true →
      onResetHandler userOnReset stores = stores) := by
  constructor <;> intro h <;> simp [onResetHandler, h]

/-- Witness for C8: an identity caller handler does not cancel, so the
stores are cleared. -/
theorem reset_clears_unless_prevented_witness :
    (runUserReset (some fun e => e)).defaultPrevented = false ∧
    onResetHandler (some fun e => e)
        { fieldErrors := [("a", "m")], touchedFields := [("a", true)], hasBeenSubmitted := true }
      = { fieldErrors := [], touchedFields := [], hasBeenSubmitted := false } :=
  ⟨rfl, (reset_clears_unless_prevented (some fun e => e)
      { fieldErrors := [("a", "m")], touchedFields := [("a", true)], hasBeenSubmitted := true }).1 rfl⟩

/-- C9: in every context value the engine exposes, the derived isValid flag
is true exactly when the field-error store is the empty mapping. -/
theorem isValid_iff_no_errors (fieldErrors : FieldErrors) (action : Option String)
    (defaultValues : Option RawPayload) (isSubmitting : Bool)
    (touchedFields : List (String × Bool)) (hasBeenSubmitted : Bool) :
    (contextValue fieldErrors action defaultValues isSubmitting touchedFields hasBeenSubmitted).isValid = true
      ↔ fieldErrors = [] := by
  simp [contextValue, jsKeys]

/-- C10: when a fetcher is supplied, any fetcher data carrying fieldErrors
is this form's error response with no subaction comparison at all, and
isSubmitting is derived solely from the fetcher state, independent of the
form action, subaction and pending page submission. -/
theorem fetcher_bypasses_subaction (f : Fetcher) (subaction : Option String)
    (actionData : Option ActionData) (action : Option String)
    (actionForCurrentPage : String) (pending : Option Submission) :
    useErrorResponseForThisForm (some f) subaction actionData
      = (match f.data with
         | some d => if d.fieldErrors.isSome then some d else none
         | none => none) ∧
    useIsSubmitting action subaction (some f) actionForCurrentPage pending
      = (f.state == "submitting") :=
  ⟨rfl, rfl⟩

end RVF
